import Mathlib

/-
Verification of the textart image-to-text conversion core
(textart/utils.py: Palette, PaletteFactory, BaseImage, TextImage).

The package entry point (textart/__main__.py) runs textart.gui, which imports
textart.utils; textart/converter.py is an earlier iteration of the same module
that is not imported anywhere, so textart/utils.py is the live code and is the
version embedded here.

Numeric model: Python floats are modelled by exact rationals (ℚ); Python's
built-in round (banker's rounding) and int() truncation are modelled exactly on
ℚ.  All concrete inputs appearing in the claims are exactly representable, so
the rational model agrees with float evaluation on them.
-/

namespace Textart

/-- Python's built-in `round` on a rational: round half to even
(banker's rounding), as used by `Palette._value_to_index` in utils.py. -/
def pyRound (q : ℚ) : ℤ :=
  if q - ⌊q⌋ < 1/2 then ⌊q⌋
  else if 1/2 < q - ⌊q⌋ then ⌊q⌋ + 1
  else if ⌊q⌋ % 2 = 0 then ⌊q⌋ else ⌊q⌋ + 1

/-- Python's `int()` truncation toward zero on a rational, as used by
`BaseImage._downsize_image` (there only ever applied to non-negative values). -/
def pyInt (q : ℚ) : ℤ :=
  if 0 ≤ q then ⌊q⌋ else ⌈q⌉

lemma floor_le_pyRound (q : ℚ) : ⌊q⌋ ≤ pyRound q := by
  unfold pyRound
  split
  · exact le_refl _
  · split
    · omega
    · split
      · exact le_refl _
      · omega

lemma pyRound_le_ceil (q : ℚ) : pyRound q ≤ ⌈q⌉ := by
  unfold pyRound
  have hfc : (⌊q⌋ : ℤ) ≤ ⌈q⌉ := Int.floor_le_ceil q
  split
  · exact hfc
  · rename_i h1
    push_neg at h1
    have hne : (⌊q⌋ : ℚ) ≠ q := by
      intro h
      rw [← h] at h1
      simp at h1
      norm_num at h1
    have : ⌊q⌋ < ⌈q⌉ := by
      rcases lt_or_eq_of_le hfc with h | h
      · exact h
      · exfalso
        apply hne
        have hq : (⌊q⌋ : ℚ) ≤ q := Int.floor_le q
        have hq2 : q ≤ (⌈q⌉ : ℚ) := Int.le_ceil q
        rw [← h] at hq2
        exact le_antisymm hq hq2
    split
    · omega
    · split <;> omega

/-- Rounding distance: `pyRound q` is within 1/2 of `q` (nearest slot). -/
lemma abs_pyRound_sub_le (q : ℚ) : |(pyRound q : ℚ) - q| ≤ 1/2 := by
  have hfl : (⌊q⌋ : ℚ) ≤ q := Int.floor_le q
  have hlt : q < (⌊q⌋ : ℚ) + 1 := Int.lt_floor_add_one q
  unfold pyRound
  split
  · rename_i h
    rw [abs_le]
    exact ⟨by linarith, by linarith⟩
  · rename_i h
    push_neg at h
    split
    · rename_i h2
      rw [abs_le]
      refine ⟨?_, ?_⟩ <;> push_cast <;> linarith
    · rename_i h2
      push_neg at h2
      have heq : q - (⌊q⌋ : ℚ) = 1/2 := le_antisymm h2 h
      split
      · rw [abs_le]
        exact ⟨by linarith, by linarith⟩
      · rw [abs_le]
        refine ⟨?_, ?_⟩ <;> push_cast <;> linarith

lemma pyRound_intCast (n : ℤ) : pyRound (n : ℚ) = n := by
  unfold pyRound
  rw [Int.floor_intCast]
  simp

lemma pyRound_nonneg (q : ℚ) (h : 0 ≤ q) : 0 ≤ pyRound q := by
  have := floor_le_pyRound q
  have h0 : (0 : ℤ) ≤ ⌊q⌋ := Int.floor_nonneg.mpr h
  omega

lemma pyRound_le_of_le_intCast (q : ℚ) (n : ℤ) (h : q ≤ (n : ℚ)) :
    pyRound q ≤ n := by
  have h1 := pyRound_le_ceil q
  have h2 : ⌈q⌉ ≤ n := Int.ceil_le.mpr h
  omega

/-! ## Palette (utils.py lines 25-88) -/

/-- Palette of text characters: `_palette` is the character list, `_is_reversed`
the informational flag toggled by `reverse`. -/
structure Palette where
  _palette : List Char
  _is_reversed : Bool
deriving DecidableEq, Repr

/-- `Palette.__init__`: raises ValueError on an empty character sequence,
otherwise stores a copy of the characters and a false reversed flag. -/
def Palette.init (characters : List Char) : Option Palette :=
  if characters.length = 0 then none
  else some ⟨characters, false⟩

/-- `Palette._value_to_index`: thresholds a value into an index via
`round(value * (len(palette) - 1))`. -/
def Palette._value_to_index (p : Palette) (value : ℚ) : ℤ :=
  pyRound (value * ((p._palette.length : ℚ) - 1))

/-- `Palette._check_value_range`: true exactly when the ValueError
`Expected a value within the range [0, 1]` would be raised. -/
def Palette._check_value_range (value : ℚ) : Bool :=
  decide (value < 0 ∨ value > 1)

/-- `Palette.__getitem__` (= `get_character`): range-check then index.
The computed index is non-negative whenever the range check passes, so the
Python list indexing never wraps; `Int.toNat` is therefore faithful. -/
def Palette.getitem (p : Palette) (value : ℚ) : Option Char :=
  if Palette._check_value_range value then none
  else p._palette[(p._value_to_index value).toNat]?

/-- `Palette.__setitem__` (= `set_character`): range-check then in-place
replacement at the computed index (`List.set` is a no-op out of bounds, which
is unreachable for in-range values). -/
def Palette.setitem (p : Palette) (value : ℚ) (character : Char) :
    Option Palette :=
  if Palette._check_value_range value then none
  else some ⟨p._palette.set (p._value_to_index value).toNat character,
             p._is_reversed⟩

/-- `Palette.reverse`: reverses the character order and toggles the flag. -/
def Palette.reverse (p : Palette) : Palette :=
  ⟨p._palette.reverse, !p._is_reversed⟩

/-- `Palette.is_reversed`. -/
def Palette.is_reversed (p : Palette) : Bool :=
  p._is_reversed

/-- `Palette.__len__`. -/
def Palette.len (p : Palette) : ℕ :=
  p._palette.length

/-- `Palette.__str__`: concatenation of all characters in current order. -/
def Palette.toStr (p : Palette) : String :=
  String.mk p._palette

/-! ## PaletteFactory (utils.py lines 91-131) -/

/-- Factory mapping palette names to raw pattern strings (a Python dict,
modelled as a partial function from names to patterns; the claims do not
depend on the dict's insertion order). -/
structure PaletteFactory where
  _patterns : String → Option String

/-- `PaletteFactory.register_pattern`: inserts or overwrites. -/
def PaletteFactory.register_pattern (f : PaletteFactory)
    (name pattern : String) : PaletteFactory :=
  ⟨fun k => if k = name then some pattern else f._patterns k⟩

/-- `PaletteFactory.unregister_pattern`: removes the entry if present. -/
def PaletteFactory.unregister_pattern (f : PaletteFactory)
    (name : String) : PaletteFactory :=
  ⟨fun k => if k = name then none else f._patterns k⟩

/-- `PaletteFactory.get_palette`: KeyError (none) for an unregistered name,
otherwise a fresh `Palette` built from the stored pattern string (Python's
`Palette(self._patterns[name])` iterates the string into a new list). -/
def PaletteFactory.get_palette (f : PaletteFactory) (name : String) :
    Option Palette :=
  match f._patterns name with
  | none => none
  | some pattern => Palette.init pattern.data

/-! ## BaseImage (utils.py lines 176-264)

The decoded source image and the processed raster are PIL `Image` objects,
external to the repository.  They are modelled as a raster of 8-bit grayscale
intensities (`PIL` mode `L` after `convert('L')`); the resampling filter used
by `Image.resize` is external library behaviour that no claim constrains, so
the constructor is embedded at the level of the raster dimensions it computes,
and `value_at` / pixel iteration are stated over an arbitrary processed
raster. -/

/-- A decoded raster image: width, height, and an 8-bit intensity per pixel
(the grayscale sample accessor of the spec's external image collaborator). -/
structure PILImage where
  width : ℕ
  height : ℕ
  pixel : ℕ → ℕ → Fin 256

/-- `PIL.Image.getpixel`, per the library's documented behaviour: returns the
pixel value for in-bounds coordinates and raises IndexError
(`image index out of range`) otherwise. -/
def PILImage.getpixel (img : PILImage) (x y : ℤ) : Option (Fin 256) :=
  if 0 ≤ x ∧ x < (img.width : ℤ) ∧ 0 ≤ y ∧ y < (img.height : ℤ)
  then some (img.pixel x.toNat y.toNat)
  else none

/-- The constructed `BaseImage` wraps its processed grayscale raster. -/
structure BaseImage where
  _image : PILImage

/-- `BaseImage._downsize_image`, restricted to the dimensions it computes for
`image.resize` (the resized pixel content is external library behaviour).
Stage 1 caps the width, stage 2 caps the height; both recompute the other
dimension with `int(...)` truncation, and stage 2 divides the ORIGINAL
`image.width` by the ORIGINAL `image.height`; a zero dimension is clamped
to 1.  On the non-negative values arising here, `int()` of Python's float
division agrees with rational floor, i.e. with natural division. -/
def BaseImage._downsize_image (w h max_width max_height : ℕ) : ℕ × ℕ :=
  let s1 : ℕ × ℕ := if w > max_width then (max_width, max_width * h / w)
                    else (w, h)
  let s2 : ℕ × ℕ := if s1.2 > max_height then (max_height * w / h, max_height)
                    else s1
  ((if s2.1 = 0 then 1 else s2.1), (if s2.2 = 0 then 1 else s2.2))

/-- `BaseImage.__init__`, at the level of the processed raster size: maxima
default to the source's own dimensions when omitted, a negative supplied
maximum raises ValueError, and the raster is resized to the dimensions
computed by `_downsize_image`. -/
def BaseImage.initSize (width height : ℕ) (max_width max_height : Option ℤ) :
    Option (ℕ × ℕ) :=
  let mw := max_width.getD (width : ℤ)
  let mh := max_height.getD (height : ℤ)
  if mw < 0 then none
  else if mh < 0 then none
  else some (BaseImage._downsize_image width height mw.toNat mh.toNat)

/-- `BaseImage.value_at`: the explicit bounds check of utils.py lines 207-210
(note `x > width`, not `x ≥ width`), followed by the `getpixel` call, with the
intensity normalized by 255. -/
def BaseImage.value_at (b : BaseImage) (x y : ℤ) : Option ℚ :=
  if x < 0 ∨ x > (b._image.width : ℤ) then none
  else if y < 0 ∨ y > (b._image.height : ℤ) then none
  else (b._image.getpixel x y).map (fun v => ((v : ℕ) : ℚ) / 255)

/-- `BaseImage.__iter__`: the values of every pixel, normalized to [0, 1], in
row-major order (row 0 left to right, then row 1, ...). -/
def BaseImage.values (b : BaseImage) : List ℚ :=
  ((List.range b._image.height).map (fun y =>
    (List.range b._image.width).map (fun x =>
      ((b._image.pixel x y : ℕ) : ℚ) / 255))).flatten

/-- The two-stage fit exactly as claimed for the constructor: `round` (not
truncation) at both stages, and stage 2 rescaling from the CURRENT
width/height.  Stated from the claim's words, for comparison with
`BaseImage._downsize_image`, which is the code's computation. -/
def downsizeDimsClaim (w h max_width max_height : ℕ) : ℕ × ℕ :=
  let s1 : ℕ × ℕ :=
    if w > max_width
    then (max_width,
          (pyRound ((max_width : ℚ) * h / w)).toNat)
    else (w, h)
  if s1.2 > max_height
  then ((pyRound ((max_height : ℚ) * s1.1 / s1.2)).toNat, max_height)
  else s1

/-! ## TextImage (utils.py lines 267-318) -/

/-- The character copy of the base image: a tuple of line strings plus the
recorded width and height. -/
structure TextImage where
  _lines : List (List Char)
  _width : ℕ
  _height : ℕ
deriving DecidableEq, Repr

/-- The loop of `TextImage.__init__`: for each of `height` rows, consume the
next `width` values from the (sequential) pixel iterator and map each through
`palette[v]`; a palette range error propagates (none). -/
def TextImage.buildLines (p : Palette) (width : ℕ) :
    ℕ → List ℚ → Option (List (List Char))
  | 0, _ => some []
  | height + 1, pixels => do
      let line ← (pixels.take width).mapM p.getitem
      let rest ← TextImage.buildLines p width height (pixels.drop width)
      pure (line :: rest)

/-- `TextImage.__init__`: pulls the row-major brightness sequence from the
base image and builds `height` lines of `width` characters each. -/
def TextImage.construct (base_image : BaseImage) (palette : Palette) :
    Option TextImage :=
  (TextImage.buildLines palette base_image._image.width
      base_image._image.height base_image.values).map
    (fun lines => ⟨lines, base_image._image.width, base_image._image.height⟩)

/-- Python's `'\n'.join(...)` on a list of character lists. -/
def pyJoin (sep : List Char) : List (List Char) → List Char
  | [] => []
  | [x] => x
  | x :: y :: xs => x ++ sep ++ pyJoin sep (y :: xs)

/-- Python's `char * x_stretch` applied across a line:
`''.join(char * x_stretch for char in line)` (a non-positive factor yields
the empty repetition, as in Python). -/
def stretchLine (line : List Char) (x_stretch : ℤ) : List Char :=
  line.flatMap (fun c => List.replicate x_stretch.toNat c)

/-- `TextImage.format`: each character repeated `x_stretch` times, each
resulting line repeated `y_stretch` times (inner join), all joined with
newlines (outer join).  No validation of the stretch factors. -/
def TextImage.format (t : TextImage) (stretch : ℤ × ℤ) : String :=
  String.mk (pyJoin [Char.ofNat 10]
    (t._lines.map (fun line =>
      pyJoin [Char.ofNat 10]
        (List.replicate stretch.2.toNat (stretchLine line stretch.1)))))

/-- `TextImage.__len__`: width times height. -/
def TextImage.len (t : TextImage) : ℕ :=
  t._width * t._height

/-- `TextImage.__str__`: lines joined with newlines, no stretch. -/
def TextImage.toStr (t : TextImage) : String :=
  String.mk (pyJoin [Char.ofNat 10] t._lines)

/-! ## Helper lemmas about the palette index computation -/

lemma check_value_range_false {v : ℚ} (h0 : 0 ≤ v) (h1 : v ≤ 1) :
    Palette._check_value_range v = false := by
  unfold Palette._check_value_range
  simp only [decide_eq_false_iff_not]
  push_neg
  exact ⟨h0, h1⟩

lemma check_value_range_true_iff (v : ℚ) :
    Palette._check_value_range v = true ↔ (v < 0 ∨ 1 < v) := by
  unfold Palette._check_value_range
  simp

lemma value_to_index_nonneg (p : Palette) (hp : p._palette ≠ [])
    (v : ℚ) (h0 : 0 ≤ v) : 0 ≤ p._value_to_index v := by
  have hn : 1 ≤ p._palette.length := List.length_pos.mpr hp
  have hn1 : (1 : ℚ) ≤ (p._palette.length : ℚ) := by exact_mod_cast hn
  exact pyRound_nonneg _ (mul_nonneg h0 (by linarith))

lemma value_to_index_toNat_lt (p : Palette) (hp : p._palette ≠ [])
    (v : ℚ) (h0 : 0 ≤ v) (h1 : v ≤ 1) :
    (p._value_to_index v).toNat < p._palette.length := by
  have hn : 1 ≤ p._palette.length := List.length_pos.mpr hp
  have hn1 : (1 : ℚ) ≤ (p._palette.length : ℚ) := by exact_mod_cast hn
  have hq1 : v * ((p._palette.length : ℚ) - 1) ≤
      (((p._palette.length : ℤ) - 1 : ℤ) : ℚ) := by
    push_cast
    nlinarith
  have h2 := pyRound_le_of_le_intCast _ _ hq1
  have h3 := value_to_index_nonneg p hp v h0
  unfold Palette._value_to_index at h3 ⊢
  omega

lemma getitem_isSome (p : Palette) (hp : p._palette ≠ [])
    (v : ℚ) (h0 : 0 ≤ v) (h1 : v ≤ 1) :
    ∃ c, p.getitem v = some c ∧ c ∈ p._palette := by
  have hidx := value_to_index_toNat_lt p hp v h0 h1
  refine ⟨p._palette[(p._value_to_index v).toNat], ?_, ?_⟩
  · unfold Palette.getitem
    rw [check_value_range_false h0 h1]
    simp [List.getElem?_eq_getElem hidx]
  · exact List.getElem_mem hidx

/-! ## Helper lemmas about the downsize computation -/

/-- Python's `int(a / b)` on non-negative exact values is floor division. -/
lemma pyInt_div_natCast (a b : ℕ) :
    (pyInt ((a : ℚ) / (b : ℚ))).toNat = a / b := by
  rcases Nat.eq_zero_or_pos b with hb | hb
  · subst hb
    simp [pyInt]
  · have hnn : (0 : ℚ) ≤ (a : ℚ) / (b : ℚ) := by positivity
    rw [pyInt, if_pos hnn, Int.floor_toNat, Nat.floor_div_nat]
    simp

lemma nat_mul_div_le_of_le (a b c : ℕ) (h : a ≤ c) (hc : 1 ≤ c) :
    a * b / c ≤ b := by
  calc a * b / c ≤ c * b / c :=
        Nat.div_le_div_right (Nat.mul_le_mul_right b h)
    _ = b := Nat.mul_div_cancel_left b hc

/-- The dimensions computed by `_downsize_image` are at least 1 and never
exceed the source dimensions. -/
lemma downsize_image_bounds (w h mw mh : ℕ) (hw : 1 ≤ w) (hh : 1 ≤ h) :
    1 ≤ (BaseImage._downsize_image w h mw mh).1 ∧
    1 ≤ (BaseImage._downsize_image w h mw mh).2 ∧
    (BaseImage._downsize_image w h mw mh).1 ≤ w ∧
    (BaseImage._downsize_image w h mw mh).2 ≤ h := by
  by_cases hc1 : w > mw
  · have hs1w : mw ≤ w := le_of_lt hc1
    have hs1h : mw * h / w ≤ h := nat_mul_div_le_of_le mw h w hs1w hw
    by_cases hc2 : mw * h / w > mh
    · have hmh : mh ≤ h := le_trans (le_of_lt hc2) hs1h
      have hs2w : mh * w / h ≤ w := nat_mul_div_le_of_le mh w h hmh hh
      simp only [BaseImage._downsize_image, hc1, if_true, hc2]
      generalize mh * w / h = d2 at hs2w ⊢
      refine ⟨?_, ?_, ?_, ?_⟩ <;> split <;> omega
    · simp only [BaseImage._downsize_image, hc1, if_true, hc2, if_false]
      generalize mw * h / w = d1 at hs1h ⊢
      refine ⟨?_, ?_, ?_, ?_⟩ <;> split <;> omega
  · by_cases hc2 : h > mh
    · have hmh : mh ≤ h := le_of_lt hc2
      have hs2w : mh * w / h ≤ w := nat_mul_div_le_of_le mh w h hmh hh
      simp only [BaseImage._downsize_image, hc1, if_false, hc2, if_true]
      generalize mh * w / h = d2 at hs2w ⊢
      refine ⟨?_, ?_, ?_, ?_⟩ <;> split <;> omega
    · simp only [BaseImage._downsize_image, hc1, if_false, hc2]
      refine ⟨?_, ?_, ?_, ?_⟩ <;> split <;> omega

/-! ## Claim theorems -/

/-- C1: for every `Palette` built from a non-empty character sequence `C` of
length `n` and every value `v` in `[0, 1]`, `get` (and the index used by
`set`) maps `v` to the index `round(v * (n - 1))` — rounding, not truncation —
so `get 0` returns `C[0]`, `get 1` returns `C[n-1]`, and the chosen index is
within 1/2 of `v * (n - 1)` (the nearest slot). -/
theorem palette_index_rounds (C : List Char) (hC : C ≠ [])
    (v : ℚ) (h0 : 0 ≤ v) (h1 : v ≤ 1) (ch : Char) :
    ∃ p, Palette.init C = some p ∧
      p._value_to_index v = pyRound (v * ((C.length : ℚ) - 1)) ∧
      p.getitem v = C[(pyRound (v * ((C.length : ℚ) - 1))).toNat]? ∧
      p.setitem v ch =
        some ⟨C.set (pyRound (v * ((C.length : ℚ) - 1))).toNat ch, false⟩ ∧
      p.getitem 0 = some (C.head hC) ∧
      p.getitem 1 = some (C.getLast hC) ∧
      |((pyRound (v * ((C.length : ℚ) - 1)) : ℤ) : ℚ) -
          v * ((C.length : ℚ) - 1)| ≤ 1/2 := by
  have hlen : C.length ≠ 0 := by simpa using hC
  have hpos : 0 < C.length := Nat.pos_of_ne_zero hlen
  refine ⟨⟨C, false⟩, ?_, rfl, ?_, ?_, ?_, ?_, abs_pyRound_sub_le _⟩
  · simp [Palette.init, hlen]
  · simp only [Palette.getitem, check_value_range_false h0 h1,
      Bool.false_eq_true, if_false]
    rfl
  · simp only [Palette.setitem, check_value_range_false h0 h1,
      Bool.false_eq_true, if_false]
    rfl
  · have hc0 : Palette._check_value_range (0 : ℚ) = false :=
      check_value_range_false le_rfl (by norm_num)
    have hv : Palette._value_to_index ⟨C, false⟩ (0 : ℚ) = 0 := by
      unfold Palette._value_to_index
      rw [zero_mul]
      simpa using pyRound_intCast 0
    simp only [Palette.getitem, hc0, Bool.false_eq_true, if_false, hv,
      Int.toNat_zero]
    rw [List.getElem?_eq_getElem hpos]
    rw [List.getElem_zero]
  · have hc1 : Palette._check_value_range (1 : ℚ) = false :=
      check_value_range_false (by norm_num) le_rfl
    have hv : Palette._value_to_index ⟨C, false⟩ (1 : ℚ) =
        (C.length : ℤ) - 1 := by
      unfold Palette._value_to_index
      rw [one_mul]
      have hcast : ((C.length : ℚ) - 1) = (((C.length : ℤ) - 1 : ℤ) : ℚ) := by
        push_cast
        ring
      rw [hcast, pyRound_intCast]
    have htn : ((C.length : ℤ) - 1).toNat = C.length - 1 := by omega
    have hlt : C.length - 1 < C.length := by omega
    simp only [Palette.getitem, hc1, Bool.false_eq_true, if_false, hv, htn]
    rw [List.getElem?_eq_getElem hlt]
    rw [List.getLast_eq_getElem]

/-- C1 witness: on the three-character palette `"abc"`, `get 0 = 'a'` and
`get 1 = 'c'`. -/
theorem palette_index_rounds_witness :
    ∃ p, Palette.init ['a', 'b', 'c'] = some p ∧
      p.getitem 0 = some 'a' ∧ p.getitem 1 = some 'c' := by
  obtain ⟨p, hinit, _, _, _, hg0, hg1, _⟩ :=
    palette_index_rounds ['a', 'b', 'c'] (by decide) 0 le_rfl (by norm_num) 'z'
  exact ⟨p, hinit, by simpa using hg0, by simpa using hg1⟩

/-- C6: for every `Palette` with a non-empty character list, `get` and `set`
fail (ValueError) exactly when the value is below 0 or above 1, and for every
value in `[0, 1]` `get` succeeds and returns a member of the character
list. -/
theorem palette_range_errors (p : Palette) (hp : p._palette ≠ [])
    (v : ℚ) (ch : Char) :
    (p.getitem v = none ↔ (v < 0 ∨ 1 < v)) ∧
    (p.setitem v ch = none ↔ (v < 0 ∨ 1 < v)) ∧
    (0 ≤ v → v ≤ 1 → ∃ c, p.getitem v = some c ∧ c ∈ p._palette) := by
  by_cases hrange : v < 0 ∨ 1 < v
  · have hcheck : Palette._check_value_range v = true :=
      (check_value_range_true_iff v).mpr hrange
    refine ⟨?_, ?_, ?_⟩
    · simp [Palette.getitem, hcheck, hrange]
    · simp [Palette.setitem, hcheck, hrange]
    · intro h0 h1
      exfalso
      rcases hrange with h | h <;> linarith
  · push_neg at hrange
    obtain ⟨h0, h1⟩ := hrange
    obtain ⟨c, hc, hmem⟩ := getitem_isSome p hp v h0 h1
    refine ⟨?_, ?_, fun _ _ => ⟨c, hc, hmem⟩⟩
    · rw [hc]
      simp only [reduceCtorEq, false_iff]
      push_neg
      exact ⟨h0, h1⟩
    · simp only [Palette.setitem, check_value_range_false h0 h1,
        Bool.false_eq_true, if_false, reduceCtorEq, false_iff]
      push_neg
      exact ⟨h0, h1⟩

/-- C6 witness: `Palette(['x']).get(1.5)` fails, while `get(1)` returns a
member of the palette. -/
theorem palette_range_errors_witness :
    (⟨['x'], false⟩ : Palette).getitem (3/2) = none ∧
    ∃ c, (⟨['x'], false⟩ : Palette).getitem 1 = some c ∧ c ∈ ['x'] := by
  have h := palette_range_errors ⟨['x'], false⟩ (by decide) (3/2) 'y'
  have h2 := palette_range_errors ⟨['x'], false⟩ (by decide) 1 'y'
  exact ⟨h.1.mpr (Or.inr (by norm_num)),
    h2.2.2 (by norm_num) le_rfl⟩

/-- C7: `reverse` reverses the character order in place, toggles the reversed
flag and never changes the length; applying it twice restores the palette
exactly (hence every `get` result) and returns the flag to its original
state. -/
theorem palette_reverse_self_inverse (p : Palette) :
    (p.reverse)._palette = p._palette.reverse ∧
    (p.reverse).len = p.len ∧
    (p.reverse).is_reversed = !p.is_reversed ∧
    p.reverse.reverse = p ∧
    (∀ v : ℚ, (p.reverse.reverse).getitem v = p.getitem v) ∧
    (p.reverse.reverse).is_reversed = p.is_reversed := by
  have h : p.reverse.reverse = p := by
    cases p with
    | mk pal rev => simp [Palette.reverse]
  refine ⟨rfl, ?_, rfl, h, fun v => by rw [h], by rw [h]⟩
  simp [Palette.len, Palette.reverse]

/-- C8: after `register_pattern name pattern`, `get_palette name` returns a
fresh `Palette` whose string conversion is exactly the registered pattern and
whose reversed flag is freshly false.  Each call constructs its palette anew
from the stored pattern string (the embedding is purely functional, so no
operation on a returned palette — `reverse`, `setitem` — can change the
factory's stored definition or the result of another `get_palette` call,
which is witnessed here by the second call returning the same fresh value). -/
theorem factory_register_get_round_trip (f : PaletteFactory)
    (name pattern : String) (hpat : pattern ≠ "") :
    (f.register_pattern name pattern)._patterns name = some pattern ∧
    (f.register_pattern name pattern).get_palette name =
      some ⟨pattern.data, false⟩ ∧
    Palette.toStr ⟨pattern.data, false⟩ = pattern ∧
    (∀ p, (f.register_pattern name pattern).get_palette name = some p →
      p.is_reversed = false ∧ p._palette = pattern.data ∧
      ((f.register_pattern name pattern).get_palette name = some p)) := by
  have hnil : pattern.data ≠ [] := by
    intro hd
    apply hpat
    apply String.ext
    rw [hd]
  have hdata : pattern.data.length ≠ 0 :=
    fun hlen => hnil (List.length_eq_zero.mp hlen)
  have hlookup : (f.register_pattern name pattern)._patterns name =
      some pattern := by
    simp [PaletteFactory.register_pattern]
  have hget : (f.register_pattern name pattern).get_palette name =
      some ⟨pattern.data, false⟩ := by
    unfold PaletteFactory.get_palette
    rw [hlookup]
    show Palette.init pattern.data = some ⟨pattern.data, false⟩
    unfold Palette.init
    rw [if_neg hdata]
  refine ⟨hlookup, hget, rfl, ?_⟩
  intro p hp
  rw [hget] at hp
  obtain rfl : (⟨pattern.data, false⟩ : Palette) = p := by
    simpa using hp
  exact ⟨rfl, rfl, hget⟩

/-- C8 witness: registering `"abc"` under `"x"` in an empty factory
round-trips to the palette `"abc"` with a false reversed flag. -/
theorem factory_register_get_round_trip_witness :
    ((PaletteFactory.mk (fun _ => none)).register_pattern "x" "abc").get_palette
        "x" = some ⟨['a', 'b', 'c'], false⟩ ∧
    Palette.toStr ⟨['a', 'b', 'c'], false⟩ = "abc" := by
  have h := factory_register_get_round_trip ⟨fun _ => none⟩ "x" "abc"
    (by decide)
  exact ⟨h.2.1, h.2.2.1⟩

/-- C2 counterexample: for a 5×3 source with `max_width = max_height = 3`,
the constructor computes (3, 1) — stage 1 truncates `int(3*3/5) = 1` — while
the claimed formula `round(3*3/5) = round(1.8) = 2` yields (3, 2). -/
theorem downsize_round_counterexample :
    BaseImage.initSize 5 3 (some 3) (some 3) = some (3, 1) ∧
    downsizeDimsClaim 5 3 3 3 = (3, 2) ∧
    BaseImage._downsize_image 5 3 3 3 ≠ downsizeDimsClaim 5 3 3 3 := by
  have h2 : downsizeDimsClaim 5 3 3 3 = (3, 2) := by
    norm_num [downsizeDimsClaim, pyRound, Int.floor_eq_iff]
    rfl
  refine ⟨by decide, h2, ?_⟩
  rw [h2]
  decide

/-- C2 (amended): the constructor computes the processed raster size by the
two-stage fit with `int()` TRUNCATION (not rounding), and the second stage
rescales from the ORIGINAL source dimensions (not the stage-1 result): if
source width exceeds `max_width` then width = max_width and
height = int(max_width * source_height / source_width); then, if the
resulting (or original) height exceeds `max_height`, height = max_height and
width = int(max_height * source_width / source_height); a zero dimension is
clamped to 1.  A 200×100 source with maxima 50×50 still yields exactly
50×25. -/
theorem downsize_two_stage_fit (w h mw mh : ℕ) (_hw : 1 ≤ w)
    (_hh : 1 ≤ h) :
    BaseImage.initSize w h (some (mw : ℤ)) (some (mh : ℤ)) =
      some (BaseImage._downsize_image w h mw mh) ∧
    BaseImage._downsize_image w h mw mh =
      (let s1 : ℕ × ℕ :=
        if mw < w then (mw, (pyInt ((mw * h : ℕ) / (w : ℚ))).toNat)
        else (w, h)
       let s2 : ℕ × ℕ :=
        if mh < s1.2 then ((pyInt ((mh * w : ℕ) / (h : ℚ))).toNat, mh)
        else s1
       ((if s2.1 = 0 then 1 else s2.1), (if s2.2 = 0 then 1 else s2.2))) ∧
    BaseImage.initSize 200 100 (some 50) (some 50) = some (50, 25) := by
  refine ⟨?_, ?_, by decide⟩
  · simp [BaseImage.initSize]
  · unfold BaseImage._downsize_image
    rw [pyInt_div_natCast, pyInt_div_natCast]

/-- C2 witness for the amended claim, at the spec's own example: a 200×100
source with maxima 50×50 resizes to 50×25. -/
theorem downsize_two_stage_fit_witness :
    BaseImage.initSize 200 100 (some 50) (some 50) = some (50, 25) := by
  exact (downsize_two_stage_fit 200 100 50 50 (by norm_num)
    (by norm_num)).2.2

/-- C9: for every source with positive dimensions and non-negative maxima,
the constructed raster dimensions are each at least 1 and never exceed the
source dimensions (the raster is only ever scaled down, never up). -/
theorem base_image_size_invariant (w h mw mh : ℕ) (hw : 1 ≤ w)
    (hh : 1 ≤ h) :
    ∃ w2 h2,
      BaseImage.initSize w h (some (mw : ℤ)) (some (mh : ℤ)) =
        some (w2, h2) ∧
      1 ≤ w2 ∧ 1 ≤ h2 ∧ w2 ≤ w ∧ h2 ≤ h := by
  obtain ⟨h1, h2, h3, h4⟩ := downsize_image_bounds w h mw mh hw hh
  refine ⟨(BaseImage._downsize_image w h mw mh).1,
    (BaseImage._downsize_image w h mw mh).2, ?_, h1, h2, h3, h4⟩
  simp [BaseImage.initSize]

/-- C9 witness: the spec's degenerate example, a 1000×1 source with maxima
10×10, yields (10, 1) — the height is clamped to 1, never 0 — and both
dimensions stay within the source's. -/
theorem base_image_size_invariant_witness :
    (∃ w2 h2,
      BaseImage.initSize 1000 1 (some 10) (some 10) = some (w2, h2) ∧
      1 ≤ w2 ∧ 1 ≤ h2 ∧ w2 ≤ 1000 ∧ h2 ≤ 1) ∧
    BaseImage.initSize 1000 1 (some 10) (some 10) = some (10, 1) := by
  exact ⟨base_image_size_invariant 1000 1 10 10 (by norm_num) le_rfl,
    by decide⟩

/-- A normalized 8-bit intensity lies in [0, 1]. -/
lemma pixel_value_bounds (n : Fin 256) :
    0 ≤ ((n : ℕ) : ℚ) / 255 ∧ ((n : ℕ) : ℚ) / 255 ≤ 1 := by
  constructor
  · positivity
  · rw [div_le_one (by norm_num)]
    exact_mod_cast Nat.lt_succ_iff.mp n.isLt

/-- C3: `value_at` fails exactly when a coordinate is negative or at least the
corresponding raster dimension, and succeeds with intensity/255 — a value in
[0, 1] — on every in-range pair.  The explicit check (utils.py lines 207-210)
alone lets `x = width` and `y = height` through (`x > width`, not `>=`), but
the subsequent `getpixel` call raises IndexError on those coordinates, so the
observable failure condition is the strict one stated by the claim. -/
theorem value_at_strict_bounds (img : PILImage) (x y : ℤ) :
    ((BaseImage.mk img).value_at x y ≠ none ↔
      (0 ≤ x ∧ x < (img.width : ℤ) ∧ 0 ≤ y ∧ y < (img.height : ℤ))) ∧
    (0 ≤ x → x < (img.width : ℤ) → 0 ≤ y → y < (img.height : ℤ) →
      (BaseImage.mk img).value_at x y =
        some (((img.pixel x.toNat y.toNat : ℕ) : ℚ) / 255) ∧
      0 ≤ ((img.pixel x.toNat y.toNat : ℕ) : ℚ) / 255 ∧
      ((img.pixel x.toNat y.toNat : ℕ) : ℚ) / 255 ≤ 1) := by
  constructor
  · unfold BaseImage.value_at PILImage.getpixel
    by_cases h1 : x < 0 ∨ x > (img.width : ℤ)
    · simp only [h1, if_true]
      simp only [ne_eq, not_true_eq_false, false_iff]
      omega
    · by_cases h2 : y < 0 ∨ y > (img.height : ℤ)
      · simp only [h1, if_false, h2, if_true]
        simp only [ne_eq, not_true_eq_false, false_iff]
        omega
      · by_cases h3 : 0 ≤ x ∧ x < (img.width : ℤ) ∧ 0 ≤ y ∧
            y < (img.height : ℤ)
        · simp [h1, h2, h3]
        · simp [h1, h2, h3]
  · intro hx0 hxw hy0 hyh
    have h1 : ¬(x < 0 ∨ x > (img.width : ℤ)) := by omega
    have h2 : ¬(y < 0 ∨ y > (img.height : ℤ)) := by omega
    have h3 : 0 ≤ x ∧ x < (img.width : ℤ) ∧ 0 ≤ y ∧ y < (img.height : ℤ) :=
      ⟨hx0, hxw, hy0, hyh⟩
    obtain ⟨hb1, hb2⟩ := pixel_value_bounds (img.pixel x.toNat y.toNat)
    refine ⟨?_, hb1, hb2⟩
    unfold BaseImage.value_at PILImage.getpixel
    simp [h1, h2, h3]

/-- C3 witness: on a 2×1 raster of constant intensity 51, `value_at 0 0`
returns 51/255 and `value_at 2 0` (x equal to the width) fails. -/
theorem value_at_strict_bounds_witness :
    (BaseImage.mk ⟨2, 1, fun _ _ => (51 : Fin 256)⟩).value_at 0 0 =
      some (51 / 255 : ℚ) ∧
    (BaseImage.mk ⟨2, 1, fun _ _ => (51 : Fin 256)⟩).value_at 2 0 = none := by
  have h := value_at_strict_bounds ⟨2, 1, fun _ _ => (51 : Fin 256)⟩ 0 0
  have h2 := value_at_strict_bounds ⟨2, 1, fun _ _ => (51 : Fin 256)⟩ 2 0
  constructor
  · have hv := (h.2 le_rfl (by norm_num) le_rfl (by norm_num)).1
    rw [hv]
    have hfin : ((51 : Fin 256) : ℕ) = 51 := rfl
    rw [hfin]
    norm_num
  · cases hval : (BaseImage.mk ⟨2, 1, fun _ _ =>
        (51 : Fin 256)⟩).value_at 2 0 with
    | none => rfl
    | some q =>
      exfalso
      have hr := h2.1.mp (by simp [hval])
      obtain ⟨_, hlt, _, _⟩ := hr
      norm_num at hlt

/-! ## Helper lemmas for the text image construction -/

lemma mapM_eq_some_map {α β : Type} (f : α → Option β) (g : α → β) :
    ∀ l : List α, (∀ a ∈ l, f a = some (g a)) → l.mapM f = some (l.map g)
  | [], _ => by rw [List.mapM_nil]; rfl
  | a :: l, h => by
      have ha := h a (List.mem_cons_self a l)
      have hl := mapM_eq_some_map f g l
        (fun b hb => h b (List.mem_cons_of_mem a hb))
      rw [List.mapM_cons, ha, hl]
      rfl

lemma getitem_eq_getD (p : Palette) (hp : p._palette ≠ []) (v : ℚ)
    (h0 : 0 ≤ v) (h1 : v ≤ 1) :
    p.getitem v = some (p._palette.getD (p._value_to_index v).toNat 'A') := by
  have hidx := value_to_index_toNat_lt p hp v h0 h1
  unfold Palette.getitem
  rw [check_value_range_false h0 h1]
  simp only [Bool.false_eq_true, if_false]
  rw [List.getElem?_eq_getElem hidx, List.getD_eq_getElem?_getD,
    List.getElem?_eq_getElem hidx]
  rfl

lemma buildLines_rows (p : Palette) (w : ℕ) (g : ℚ → Char) :
    ∀ rows : List (List ℚ),
      (∀ r ∈ rows, r.length = w) →
      (∀ r ∈ rows, ∀ v ∈ r, p.getitem v = some (g v)) →
      TextImage.buildLines p w rows.length rows.flatten =
        some (rows.map (fun r => r.map g))
  | [], _, _ => by simp [TextImage.buildLines]
  | r :: rows, hlen, hsome => by
      have hr : r.length = w := hlen r (List.mem_cons_self r rows)
      have htake : ((r ++ rows.flatten).take w) = r := by
        rw [← hr]
        exact List.take_left r rows.flatten
      have hdrop : ((r ++ rows.flatten).drop w) = rows.flatten := by
        rw [← hr]
        exact List.drop_left r rows.flatten
      have hmapM : r.mapM p.getitem = some (r.map g) :=
        mapM_eq_some_map p.getitem g r
          (fun v hv => hsome r (List.mem_cons_self r rows) v hv)
      have hrec := buildLines_rows p w g rows
        (fun s hs => hlen s (List.mem_cons_of_mem r hs))
        (fun s hs => hsome s (List.mem_cons_of_mem r hs))
      simp only [List.length_cons, List.flatten_cons, TextImage.buildLines,
        htake, hdrop, hmapM, hrec, Option.bind_some, List.map_cons]
      rfl

/-- C4: for every `BaseImage` of size w×h and every non-empty `Palette`, the
constructed `TextImage` has width w and height h, consists of exactly h lines
of w characters each (w·h characters in total), and the character at row y,
column x is the palette lookup of the brightness value of pixel (x, y), taken
in row-major order.  The embedding is purely functional, so the content is
fixed at construction. -/
theorem text_image_construction (b : BaseImage) (p : Palette)
    (hp : p._palette ≠ []) :
    ∃ t, TextImage.construct b p = some t ∧
      t._width = b._image.width ∧
      t._height = b._image.height ∧
      t._lines.length = b._image.height ∧
      (∀ line ∈ t._lines, line.length = b._image.width) ∧
      (t._lines.map List.length).sum = b._image.width * b._image.height ∧
      (∀ x y : ℕ, x < b._image.width → y < b._image.height →
        (t._lines[y]?).bind (fun s => s[x]?) =
          p.getitem (((b._image.pixel x y : ℕ) : ℚ) / 255)) := by
  set w := b._image.width with hw
  set h := b._image.height with hh
  set g : ℚ → Char :=
    fun v => p._palette.getD (p._value_to_index v).toNat 'A' with hg
  set rows : List (List ℚ) := (List.range h).map (fun y =>
    (List.range w).map (fun x =>
      ((b._image.pixel x y : ℕ) : ℚ) / 255)) with hrows
  have hvalues : b.values = rows.flatten := rfl
  have hrowlen : ∀ r ∈ rows, r.length = w := by
    intro r hr
    rw [hrows] at hr
    obtain ⟨y, _, rfl⟩ := List.mem_map.mp hr
    simp
  have hsome : ∀ r ∈ rows, ∀ v ∈ r, p.getitem v = some (g v) := by
    intro r hr v hv
    rw [hrows] at hr
    obtain ⟨y, _, rfl⟩ := List.mem_map.mp hr
    obtain ⟨x, _, rfl⟩ := List.mem_map.mp hv
    obtain ⟨hb0, hb1⟩ := pixel_value_bounds (b._image.pixel x y)
    exact getitem_eq_getD p hp _ hb0 hb1
  have hrowcount : rows.length = h := by
    rw [hrows]
    simp
  have hbuild : TextImage.buildLines p w h b.values =
      some (rows.map (fun r => r.map g)) := by
    rw [hvalues, ← hrowcount]
    exact buildLines_rows p w g rows hrowlen hsome
  refine ⟨⟨rows.map (fun r => r.map g), w, h⟩, ?_, rfl, rfl, ?_, ?_, ?_, ?_⟩
  · unfold TextImage.construct
    rw [← hw, ← hh, hbuild]
    rfl
  · simp [hrowcount]
  · intro line hline
    obtain ⟨r, hr, rfl⟩ := List.mem_map.mp hline
    simp [hrowlen r hr]
  · have hcollapse : (rows.map (fun r => r.map g)).map List.length =
        List.replicate h w := by
      rw [List.eq_replicate_iff]
      constructor
      · simp [hrowcount]
      · intro n hn
        rw [List.map_map] at hn
        obtain ⟨r, hr, rfl⟩ := List.mem_map.mp hn
        simp [hrowlen r hr]
    rw [hcollapse, List.sum_replicate, smul_eq_mul, Nat.mul_comm]
  · intro x y hx hy
    have hyrow : rows[y]? = some ((List.range w).map (fun x =>
        ((b._image.pixel x y : ℕ) : ℚ) / 255)) := by
      rw [hrows]
      rw [List.getElem?_map, List.getElem?_range hy]
      rfl
    show ((rows.map (fun r => r.map g))[y]?).bind (fun s => s[x]?) = _
    rw [List.getElem?_map, hyrow]
    show (((List.range w).map (fun x =>
      ((b._image.pixel x y : ℕ) : ℚ) / 255)).map g)[x]? = _
    rw [List.map_map, List.getElem?_map, List.getElem?_range hx]
    obtain ⟨hb0, hb1⟩ := pixel_value_bounds (b._image.pixel x y)
    rw [getitem_eq_getD p hp _ hb0 hb1]
    rfl

/-- C4 witness: a 2×2 constant-black raster with the palette `"ab"` builds a
2×2 text image of four characters `'a'`. -/
theorem text_image_construction_witness :
    ∃ t, TextImage.construct
        (BaseImage.mk ⟨2, 2, fun _ _ => (0 : Fin 256)⟩)
        ⟨['a', 'b'], false⟩ = some t ∧
      t._width = 2 ∧ t._height = 2 ∧ t._lines.length = 2 := by
  obtain ⟨t, h1, h2, h3, h4, _⟩ := text_image_construction
    (BaseImage.mk ⟨2, 2, fun _ _ => (0 : Fin 256)⟩)
    ⟨['a', 'b'], false⟩ (by decide)
  exact ⟨t, h1, h2, h3, h4⟩

/-! ## Helper lemmas about Python string join -/

lemma pyJoin_cons_of_ne (sep a : List Char) (rest : List (List Char))
    (h : rest ≠ []) :
    pyJoin sep (a :: rest) = a ++ sep ++ pyJoin sep rest := by
  cases rest with
  | nil => exact absurd rfl h
  | cons b l => rfl

lemma pyJoin_append (sep : List Char) :
    ∀ xs ys : List (List Char), xs ≠ [] → ys ≠ [] →
      pyJoin sep (xs ++ ys) = pyJoin sep xs ++ sep ++ pyJoin sep ys
  | [], _, hx, _ => absurd rfl hx
  | [a], ys, _, hy => by
      rw [List.singleton_append, pyJoin_cons_of_ne sep a ys hy]
      rfl
  | a :: b :: xs, ys, _, hy => by
      have h1 : (b :: xs) ++ ys ≠ [] := by simp
      rw [List.cons_append, pyJoin_cons_of_ne sep a ((b :: xs) ++ ys) h1,
        pyJoin_append sep (b :: xs) ys (by simp) hy,
        pyJoin_cons_of_ne sep a (b :: xs) (by simp)]
      simp [List.append_assoc]

lemma flatMap_replicate_ne (n : ℕ) (hn : 1 ≤ n) :
    ∀ ls : List (List Char), ls ≠ [] →
      ls.flatMap (fun l => List.replicate n l) ≠ []
  | [], h => absurd rfl h
  | a :: ls, _ => by
      rw [List.flatMap_cons]
      intro hc
      obtain ⟨h1, _⟩ := List.append_eq_nil.mp hc
      rw [List.replicate_eq_nil_iff] at h1
      omega

lemma pyJoin_flatMap_replicate (sep : List Char) (n : ℕ) (hn : 1 ≤ n) :
    ∀ ls : List (List Char),
      pyJoin sep (ls.flatMap (fun l => List.replicate n l)) =
        pyJoin sep (ls.map (fun l => pyJoin sep (List.replicate n l)))
  | [] => rfl
  | [a] => by
      show pyJoin sep (List.replicate n a ++ []) =
        pyJoin sep [pyJoin sep (List.replicate n a)]
      rw [List.append_nil]
      rfl
  | a :: b :: ls => by
      have hrest : (b :: ls).flatMap (fun l => List.replicate n l) ≠ [] :=
        flatMap_replicate_ne n hn (b :: ls) (by simp)
      have hrepl : List.replicate n a ≠ [] := by
        rw [Ne, List.replicate_eq_nil_iff]
        omega
      have hmap : List.map (fun l => pyJoin sep (List.replicate n l))
          (a :: b :: ls) =
          pyJoin sep (List.replicate n a) ::
            List.map (fun l => pyJoin sep (List.replicate n l)) (b :: ls) :=
        rfl
      rw [List.flatMap_cons,
        pyJoin_append sep (List.replicate n a) _ hrepl hrest,
        pyJoin_flatMap_replicate sep n hn (b :: ls), hmap,
        pyJoin_cons_of_ne sep _ _ (by simp)]

lemma stretchLine_one (l : List Char) : stretchLine l 1 = l := by
  unfold stretchLine
  induction l with
  | nil => rfl
  | cons c l ih =>
      rw [List.flatMap_cons, ih]
      rfl

lemma pyJoin_map_nil (sep : List Char) :
    ∀ ls : List (List Char),
      pyJoin sep (ls.map (fun _ => ([] : List Char))) =
        (List.replicate (ls.length - 1) sep).flatten
  | [] => rfl
  | [a] => rfl
  | a :: b :: ls => by
      rw [List.map_cons, pyJoin_cons_of_ne sep _ _ (by simp),
        pyJoin_map_nil sep (b :: ls)]
      have h1 : (a :: b :: ls).length - 1 = ((b :: ls).length - 1) + 1 := by
        simp
      rw [h1, List.replicate_succ, List.flatten_cons, List.nil_append]

lemma flatten_replicate_singleton (k : ℕ) (c : Char) :
    (List.replicate k [c]).flatten = List.replicate k c := by
  induction k with
  | zero => rfl
  | succ k ih => rw [List.replicate_succ, List.flatten_cons,
      List.replicate_succ, List.singleton_append, ih]

/-- C5: for stretch factors at least 1, `format` repeats each character
`x_stretch` times horizontally, emits the `y_stretch` vertical copies of each
stretched row consecutively before moving to the next row, and joins
everything with newlines; `format (1, 1)` equals the plain string conversion,
and on the 2×1 image `"ab"`, `format (2, 1) = "aabb"` and
`format (1, 2) = "ab\nab"`. -/
theorem format_stretch (t : TextImage) (x y : ℤ) (_hx : 1 ≤ x)
    (hy : 1 ≤ y) :
    t.format (x, y) = String.mk (pyJoin [Char.ofNat 10]
      ((t._lines.map (fun l => stretchLine l x)).flatMap
        (fun l => List.replicate y.toNat l))) ∧
    (∀ s : TextImage, s.format (1, 1) = s.toStr) ∧
    (⟨[['a', 'b']], 2, 1⟩ : TextImage).format (2, 1) = "aabb" ∧
    (⟨[['a', 'b']], 2, 1⟩ : TextImage).format (1, 2) = "ab\nab" := by
  have hn : 1 ≤ y.toNat := by omega
  refine ⟨?_, ?_, by decide, by decide⟩
  · unfold TextImage.format
    rw [pyJoin_flatMap_replicate [Char.ofNat 10] y.toNat hn, List.map_map]
    rfl
  · intro s
    unfold TextImage.format TextImage.toStr
    have hone : ((1 : ℤ), (1 : ℤ)).2.toNat = 1 := rfl
    simp only [hone, List.replicate_one]
    have hinner : s._lines.map
        (fun l => pyJoin [Char.ofNat 10] [stretchLine l (1, 1).1]) =
        s._lines.map (fun l => l) := by
      apply List.map_congr_left
      intro l _
      show stretchLine l 1 = l
      exact stretchLine_one l
    rw [hinner, List.map_id']

/-- C5 witness: the two concrete stretch examples from the claim. -/
theorem format_stretch_witness :
    (⟨[['a', 'b']], 2, 1⟩ : TextImage).format (2, 1) = "aabb" ∧
    (⟨[['a', 'b']], 2, 1⟩ : TextImage).format (1, 2) = "ab\nab" := by
  have h := format_stretch ⟨[['a', 'b']], 2, 1⟩ 2 1 (by norm_num)
    (by norm_num)
  exact ⟨h.2.2.1, h.2.2.2⟩

/-- C10: `format` validates nothing: it is a total function of the stretch
pair (Python's `char * n` and `range(n)` treat a non-positive `n` as empty,
raising no error), and for a zero (or negative) `y_stretch` every line
collapses to the empty repetition, so the result is exactly `height - 1`
newline characters, for any `x_stretch` whatsoever. -/
theorem format_no_stretch_validation (t : TextImage) (x ys : ℤ)
    (hy : ys ≤ 0) (hlines : t._lines.length = t._height) :
    t.format (x, ys) =
      String.mk (List.replicate (t._height - 1) (Char.ofNat 10)) := by
  have hn : (x, ys).2.toNat = 0 := by
    simp only []
    omega
  unfold TextImage.format
  rw [hn]
  simp only [List.replicate_zero]
  show String.mk (pyJoin [Char.ofNat 10]
    (t._lines.map (fun _ => ([] : List Char)))) = _
  rw [pyJoin_map_nil, hlines, flatten_replicate_singleton]

/-- C10 witness: a 3-line text image formatted with `x_stretch = -5` and
`y_stretch = 0` yields the two-newline string, with no error possible. -/
theorem format_no_stretch_validation_witness :
    (⟨[['a'], ['b'], ['c']], 1, 3⟩ : TextImage).format (-5, 0) = "\n\n" := by
  have h := format_no_stretch_validation ⟨[['a'], ['b'], ['c']], 1, 3⟩
    (-5) 0 le_rfl rfl
  rw [h]
  rfl

end Textart
